import Mathlib

/-!
# Verification of the jot note-taking core

A shallow embedding, in Lean 4, of the note-repository core of the `jot`
application: the path guard and repository mutators of
`src/lib/fileSystem.ts`, the note store of `src/store/noteStore.ts`
(recents, favorites, tag scanner, backlink finder), the heading extractor of
`src/hooks/useMarkdownHeadings.ts`, and the auto-save logic of
`src/components/Editor/MarkdownEditor.tsx`.

Strings are modelled as Lean `String`s operated on through their character
lists.  JavaScript string and regular-expression primitives used by the code
(`trim`, `split`, `includes`, `startsWith`, `endsWith`, the handful of
concrete regular expressions, and the stateful `lastIndex` behaviour of
`RegExp.test` under the `g` flag) are modelled explicitly below; character
case mapping is the ASCII one.
-/


/- ## JavaScript string primitives -/
/-- The characters matched by the JavaScript regular-expression class `\s`
(and trimmed by `String.prototype.trim`). -/
def jsWs (c : Char) : Bool :=
  c = ' ' || c = '\t' || c = '\n' || c = Char.ofNat 0x0B || c = Char.ofNat 0x0C ||
  c = '\r' || c = Char.ofNat 0xA0 || c = Char.ofNat 0x1680 ||
  (0x2000 ≤ c.toNat && c.toNat ≤ 0x200A) ||
  c = Char.ofNat 0x2028 || c = Char.ofNat 0x2029 || c = Char.ofNat 0x202F ||
  c = Char.ofNat 0x205F || c = Char.ofNat 0x3000 || c = Char.ofNat 0xFEFF

/-- `String.prototype.trim` on a character list: strip leading and trailing
JavaScript whitespace. -/
def jsTrimL (cs : List Char) : List Char :=
  ((cs.dropWhile jsWs).reverse.dropWhile jsWs).reverse

/-- `String.prototype.trim`. -/
def jsTrim (s : String) : String :=
  String.mk (jsTrimL s.data)

/-- `content.split("\n")` on a character list.  Always returns a non-empty
list of groups; `"a\n"` splits into `["a", ""]` and `""` into `[""]`. -/
def splitNl : List Char → List (List Char)
  | [] => [[]]
  | c :: rest =>
    match splitNl rest with
    | [] => [[]]
    | g :: gs => if c = '\n' then [] :: g :: gs else (c :: g) :: gs

/-- `content.split("\n")`. -/
def jsSplitLines (s : String) : List String :=
  (splitNl s.data).map String.mk

/-- Containment of `sub` as a contiguous run inside a character list. -/
def isSubL (sub : List Char) : List Char → Bool
  | [] => List.isPrefixOf sub []
  | l@(_ :: rest) => List.isPrefixOf sub l || isSubL sub rest

/-- `a.includes(b)` (substring containment). -/
def containsSub (sub s : String) : Bool :=
  isSubL sub.data s.data

/-- `s.startsWith(p)`. -/
def jsStartsWith (p s : String) : Bool :=
  List.isPrefixOf p.data s.data

/-- `s.endsWith(p)`. -/
def jsEndsWith (p s : String) : Bool :=
  List.isSuffixOf p.data s.data

/-- The segment of a path after its last `/`; the whole string when it has
no `/`.  This is `sourcePath.substring(sourcePath.lastIndexOf("/") + 1)`. -/
def lastSegment (s : String) : String :=
  String.mk ((s.data.reverse.takeWhile (· ≠ '/')).reverse)

/- ## Path guard (`src/lib/fileSystem.ts`) -/
/-- The character class `[<>:"|?*\x00-\x1f]` of reserved characters rejected
and stripped by the path guard. -/
def reservedChar (c : Char) : Bool :=
  c = '<' || c = '>' || c = ':' || c = '"' || c = '|' || c = '?' || c = '*' ||
  c.toNat ≤ 0x1f

/-- `isValidName` from `src/lib/fileSystem.ts`: rejects empty or
whitespace-only names, names containing `..`, `/` or `\`, names starting
with `.`, and names containing a reserved character. -/
def isValidName (name : String) : Bool :=
  if name = "" || jsTrim name = "" then false
  else if containsSub ".." name || containsSub "/" name || containsSub "\\" name then false
  else if jsStartsWith "." name then false
  else if name.data.any reservedChar then false
  else true

/-- One pass of `name.replace(/\.\./g, "")`: remove non-overlapping `..`
pairs left to right, resuming after each removed pair. -/
def removeDotDot : List Char → List Char
  | '.' :: '.' :: rest => removeDotDot rest
  | c :: rest => c :: removeDotDot rest
  | [] => []

/-- `sanitizeFileName` from `src/lib/fileSystem.ts`: remove `..` pairs, then
remove path separators (`/`, `\`), then remove reserved characters, then
trim. -/
def sanitizeFileName (name : String) : String :=
  String.mk (jsTrimL (((removeDotDot name.data).filter
    (fun c => !(c = '/' || c = '\\'))).filter (fun c => !reservedChar c)))

/- ## `moveItem` (`src/lib/fileSystem.ts`) -/
/-- A storage operation performed by a repository mutator, in order. -/
inductive StorageOp where
  | existsCheck (p : String)
  | renameOp (src dst : String)
deriving DecidableEq

/-- The storage collaborator seen by `moveItem`: whether a path exists, and
whether a `rename` succeeds (`false` models a thrown storage error). -/
structure Storage where
  existsAt : String → Bool
  renameOk : String → String → Bool

/-- `moveItem` from `src/lib/fileSystem.ts`.  Returns the result (`none` on
any failure) together with the list of storage operations performed. -/
def moveItem (st : Storage) (sourcePath targetFolder : String) :
    Option String × List StorageOp :=
  let itemName := lastSegment sourcePath
  if !isValidName itemName then (none, [])
  else
    let newPath := targetFolder ++ "/" ++ itemName
    if targetFolder = sourcePath || jsStartsWith (sourcePath ++ "/") targetFolder then
      (none, [])
    else if newPath = sourcePath then (none, [])
    else if st.existsAt newPath then (none, [.existsCheck newPath])
    else if st.renameOk sourcePath newPath then
      (some newPath, [.existsCheck newPath, .renameOp sourcePath newPath])
    else (none, [.existsCheck newPath, .renameOp sourcePath newPath])

/-- A concrete storage state in which every path exists and every rename
succeeds, used to witness C3. -/
def mvStorage : Storage := ⟨fun _ => true, fun _ _ => true⟩

/- ## Heading extractor (`src/hooks/useMarkdownHeadings.ts`) -/
/-- The characters matched by `.` in a JavaScript regular expression without
the `s` flag: everything except a line terminator. -/
def jsDotChar (c : Char) : Bool :=
  !(c = '\n' || c = '\r' || c = Char.ofNat 0x2028 || c = Char.ofNat 0x2029)

/-- Backtracking search for the split made by `\s+(.+)$` on `rest` (the part
of the line after the leading `#`s): try the maximal whitespace prefix
length first and give characters back one at a time; the remainder must be
non-empty and free of line terminators.  Returns the captured group. -/
def hsGo (rest : List Char) : Nat → Option (List Char)
  | 0 => none
  | k + 1 =>
    let b := rest.drop (k + 1)
    if !b.isEmpty && b.all jsDotChar then some b else hsGo rest k

/-- Matching one line against `^(#{1,6})\s+(.+)$`: the number of leading
`#`s (1 to 6; with 7 or more the character after any shorter `#`-run is
another `#`, not whitespace, so nothing matches) and the second captured
group. -/
def lineHeading (line : String) : Option (Nat × String) :=
  let cs := line.data
  let n := (cs.takeWhile (· = '#')).length
  if n = 0 || n > 6 then none
  else
    match hsGo (cs.drop n) ((cs.drop n).takeWhile jsWs).length with
    | some b => some (n, String.mk b)
    | none => none

/-- The `Heading` record produced by the extractor. -/
structure Heading where
  id : String
  text : String
  level : Nat
  line : Nat
deriving DecidableEq

/-- The JavaScript word-character class `\w`, that is `[A-Za-z0-9_]`. -/
def wordChar (c : Char) : Bool :=
  ('a' ≤ c && c ≤ 'z') || ('A' ≤ c && c ≤ 'Z') || ('0' ≤ c && c ≤ '9') || c = '_'

/-- `replace(/\s+/g, "-")`: each maximal run of whitespace becomes a single
`-`.  The flag records whether the previous character belonged to a run. -/
def wsRunGo (prevWs : Bool) : List Char → List Char
  | [] => []
  | c :: rest =>
    if jsWs c then
      if prevWs then wsRunGo true rest else '-' :: wsRunGo true rest
    else c :: wsRunGo false rest

/-- The slug computed by the extractor:
`text.toLowerCase().replace(/[^\w\s-]/g, "").replace(/\s+/g, "-")` — note
that `-` survives the strip. -/
def slugId (text : String) : String :=
  String.mk (wsRunGo false
    ((text.data.map Char.toLower).filter (fun c => wordChar c || jsWs c || c = '-')))

/-- The slug described by the claim's words read literally: non-word,
non-whitespace characters stripped (which would strip `-` as well), then
whitespace runs replaced by `-`. -/
def claimedSlugId (text : String) : String :=
  String.mk (wsRunGo false
    ((text.data.map Char.toLower).filter (fun c => wordChar c || jsWs c)))

/-- The `forEach` loop of `useMarkdownHeadings`: visit lines in order with a
running zero-based index, pushing a `Heading` for each matching line. -/
def headingsGo : List String → Nat → List Heading
  | [], _ => []
  | l :: rest, i =>
    match lineHeading l with
    | some (lvl, m2) =>
      let text := jsTrim m2
      ⟨slugId text, text, lvl, i + 1⟩ :: headingsGo rest (i + 1)
    | none => headingsGo rest (i + 1)

/-- `useMarkdownHeadings` from `src/hooks/useMarkdownHeadings.ts`, as a pure
function of the content. -/
def useMarkdownHeadings (content : String) : List Heading :=
  headingsGo (jsSplitLines content) 0

/-- The heading contributed by the zero-based line `idx` when it matches:
level, trimmed text, slug, 1-based line number. -/
def specHeadingOfLine (idx : Nat) (l : String) : Option Heading :=
  (lineHeading l).map (fun q => ⟨slugId (jsTrim q.2), jsTrim q.2, q.1, idx + 1⟩)

/-- The amended claim's description of the extractor: one entry per matching
line, in line order, with 1-based line numbers. -/
def specHeadings (content : String) : List Heading :=
  (jsSplitLines content).enum.filterMap (fun p => specHeadingOfLine p.1 p.2)

/- ## The file tree (`FileNode` of `src/store/noteStore.ts`) -/
/-- The `FileNode` record: `children` and `isFavorite` are optional
fields (`children?: FileNode[]`, `isFavorite?: boolean`). -/
inductive FileNode where
  | mk (name path : String) (isDirectory : Bool)
      (children : Option (List FileNode)) (isFavorite : Option Bool)

/-- The `name` field. -/
def FileNode.name : FileNode → String
  | .mk n _ _ _ _ => n

/-- The `path` field. -/
def FileNode.path : FileNode → String
  | .mk _ p _ _ _ => p

/-- The `isDirectory` field. -/
def FileNode.isDirectory : FileNode → Bool
  | .mk _ _ d _ _ => d

/-- The `children` field. -/
def FileNode.children : FileNode → Option (List FileNode)
  | .mk _ _ _ cs _ => cs

/-- The `isFavorite` field. -/
def FileNode.isFavorite : FileNode → Option Bool
  | .mk _ _ _ _ f => f

/- ## A stable comparison sort (JavaScript `Array.prototype.sort`) -/
/-- Stable insertion: `x` goes in front of the first element `y` such that
`le x y`; among elements that compare equal, earlier original elements stay
first. -/
def insertBy (le : α → α → Bool) (x : α) : List α → List α
  | [] => [x]
  | y :: ys => if le x y then x :: y :: ys else y :: insertBy le x ys

/-- A stable sort, modelling `Array.prototype.sort` with a consistent
comparator (`le a b` meaning `comparator(a, b) <= 0`). -/
def jsSortBy (le : α → α → Bool) : List α → List α
  | [] => []
  | x :: xs => insertBy le x (jsSortBy le xs)

/- ## Case-insensitive lexical order -/
/-- Lexicographic order on character lists. -/
def lexLeCh : List Char → List Char → Bool
  | [], _ => true
  | _ :: _, [] => false
  | a :: as, b :: bs => if a = b then lexLeCh as bs else decide (a < b)

/-- Case-insensitive lexical order on strings: lexicographic comparison of
the (ASCII-)lowercased character sequences. -/
def ciLe (a b : String) : Bool :=
  lexLeCh (a.data.map Char.toLower) (b.data.map Char.toLower)

/- ## Tree builder (`readNotesDirectory` of `src/lib/fileSystem.ts`) -/
/-- A raw directory listing, as delivered by the storage collaborator's
`readDir`: each entry has a name and is either a file or a directory with
its own listing. -/
inductive RawEntry where
  | fileE (name : String)
  | dirE (name : String) (entries : List RawEntry)

/-- The comparator of `readNotesDirectory`, as a boolean
`comparator(a, b) <= 0`: directories before files, then
`a.name.localeCompare(b.name)`.  `lc` stands for the external
locale-sensitive `localeCompare`. -/
def nodeLe (lc : String → String → Int) (a b : FileNode) : Bool :=
  if a.isDirectory && !b.isDirectory then true
  else if !a.isDirectory && b.isDirectory then false
  else lc a.name b.name ≤ 0

mutual

/-- `readNotesDirectory` from `src/lib/fileSystem.ts`, over a raw listing:
build the nodes (skipping dot-names, skipping files without the `.md`
extension and recursing into directories), then sort them with the
directories-first / `localeCompare` comparator. -/
def readNotesDirectory (lc : String → String → Int) (path : String)
    (entries : List RawEntry) : List FileNode :=
  jsSortBy (nodeLe lc) (collectNodes lc path entries)

/-- The entry loop of `readNotesDirectory`, producing unsorted nodes in
listing order. -/
def collectNodes (lc : String → String → Int) (path : String) :
    List RawEntry → List FileNode
  | [] => []
  | .fileE n :: rest =>
    if jsStartsWith "." n then collectNodes lc path rest
    else if !jsEndsWith ".md" n then collectNodes lc path rest
    else .mk n (path ++ "/" ++ n) false none none :: collectNodes lc path rest
  | .dirE n sub :: rest =>
    if jsStartsWith "." n then collectNodes lc path rest
    else
      .mk n (path ++ "/" ++ n) true
        (some (readNotesDirectory lc (path ++ "/" ++ n) sub)) none
        :: collectNodes lc path rest

end

/-- The sortedness relation of claim C6 between consecutive siblings: a
file never precedes a directory, and inside each of the two groups the
names are in case-insensitive lexical order. -/
def nodeOrdered (a b : FileNode) : Prop :=
  (b.isDirectory = true → a.isDirectory = true) ∧
  (a.isDirectory = b.isDirectory → ciLe a.name b.name = true)

/-- Sortedness of a node list at every level: the list is pairwise
`nodeOrdered` and the same holds recursively inside every `children`. -/
inductive LevelsSorted : List FileNode → Prop where
  | intro (l : List FileNode) (hp : l.Pairwise nodeOrdered)
      (hc : ∀ n ∈ l, ∀ cl, FileNode.children n = some cl → LevelsSorted cl) :
      LevelsSorted l

/-- A concrete comparator realising case-insensitive lexical order, used to
witness C6 (the behaviour of `localeCompare` on ASCII names). -/
def ciCompare (a b : String) : Int :=
  if ciLe a b then if ciLe b a then 0 else -1 else 1

/-- A concrete directory listing used to witness C6: a dot-file, a non-note
file, a directory and two notes whose names differ in case. -/
def c6Entries : List RawEntry :=
  [.fileE "b.md", .dirE "Sub" [.fileE "x.md", .fileE ".hidden.md"],
    .fileE "A.md", .fileE "notes.txt", .fileE ".dot.md"]

/- ## Note store state (`src/store/noteStore.ts`) -/
/-- The slice of the zustand store state relevant to the claims. -/
structure NoteState where
  files : List FileNode
  currentNote : Option String
  content : String
  isDirty : Bool
  isLoading : Bool
  favorites : List String
  recentNotes : List String

/-- An operation against the persisted meta store (`notes-meta.json`). -/
inductive PersistOp where
  | setRecents (l : List String)
  | setFavorites (l : List String)
  | save
deriving DecidableEq

/-- `loadNote` from `src/store/noteStore.ts`: set `isLoading`, read the
file (`fs` is `readTextFile`; `none` models a thrown read error), and on
success move `path` to the front of the recents (filtering out its other
occurrences and capping at 10), persist them, and install the loaded note.
On a read error the `catch` only clears `isLoading`.  Returns the new state
and the persist operations performed. -/
def loadNote (fs : String → Option String) (path : String) (s : NoteState) :
    NoteState × List PersistOp :=
  let s1 := { s with isLoading := true }
  match fs path with
  | none => ({ s1 with isLoading := false }, [])
  | some content =>
    let updated := (path :: s.recentNotes.filter (fun p => p ≠ path)).take 10
    ({ s1 with
        currentNote := some path
        content := content
        isDirty := false
        isLoading := false
        recentNotes := updated },
      [.setRecents updated, .save])

mutual

/-- The `updateFavorites` mapper inside `toggleFavorite`: rebuild each node
with `isFavorite := updated.includes(node.path)`, recursing into `children`
when present. -/
def updateFavoritesNode (fav : List String) : FileNode → FileNode
  | .mk n p d cs _ => .mk n p d (updateFavoritesOpt fav cs) (some (fav.contains p))

/-- `updateFavorites` on the optional `children` field. -/
def updateFavoritesOpt (fav : List String) :
    Option (List FileNode) → Option (List FileNode)
  | none => none
  | some l => some (updateFavoritesList fav l)

/-- `updateFavorites` on a node list. -/
def updateFavoritesList (fav : List String) : List FileNode → List FileNode
  | [] => []
  | x :: xs => updateFavoritesNode fav x :: updateFavoritesList fav xs

end

mutual

/-- Erase the `isFavorite` field everywhere: the part of a node that
`toggleFavorite` must leave unchanged (name, path, kind, shape, order). -/
def stripFavNode : FileNode → FileNode
  | .mk n p d cs _ => .mk n p d (stripFavOpt cs) none

/-- `stripFavNode` on the optional `children` field. -/
def stripFavOpt : Option (List FileNode) → Option (List FileNode)
  | none => none
  | some l => some (stripFavList l)

/-- `stripFavNode` on a node list. -/
def stripFavList : List FileNode → List FileNode
  | [] => []
  | x :: xs => stripFavNode x :: stripFavList xs

end

mutual

/-- Every node of a tree, the root included, at any depth. -/
def nodesOfNode : FileNode → List FileNode
  | .mk n p d cs f => .mk n p d cs f :: nodesOfOpt cs

/-- Every node below an optional `children` field. -/
def nodesOfOpt : Option (List FileNode) → List FileNode
  | none => []
  | some l => nodesOfList l

/-- Every node of a forest, at any depth. -/
def nodesOfList : List FileNode → List FileNode
  | [] => []
  | x :: xs => nodesOfNode x ++ nodesOfList xs

end

/-- `toggleFavorite` from `src/store/noteStore.ts`: flip membership of
`path` in the favorites (filter it out when present, append it when
absent), persist, and re-derive `isFavorite` over the current tree with
`updateFavorites` — no tree rebuild (the function does not touch
storage). -/
def toggleFavorite (path : String) (s : NoteState) : NoteState × List PersistOp :=
  let isFav := s.favorites.contains path
  let updated := if isFav then s.favorites.filter (fun p => p ≠ path)
    else s.favorites ++ [path]
  ({ s with favorites := updated, files := updateFavoritesList updated s.files },
    [.setFavorites updated, .save])

/-- A prior state whose persisted recents list already contains a
duplicate, used as the C8 counterexample. -/
def c8State : NoteState := ⟨[], none, "", false, false, [], ["b", "b"]⟩

/-- A read function that succeeds on every path with body `"x"`. -/
def c8Fs : String → Option String := fun _ => some "x"

/-- A duplicate-free prior state used to witness the amended C8. -/
def c8GoodState : NoteState := ⟨[], none, "", false, false, [], ["b", "a"]⟩

/-- A read function that fails on every path, used to witness C10. -/
def c10Fs : String → Option String := fun _ => none

/-- A mid-session state used to witness C10: a note is open, dirty, and a
load is in flight. -/
def c10State : NoteState := ⟨[], some "/n/old.md", "body", true, true, ["/n/f.md"], ["/n/r.md"]⟩

/- ## Backlink finder (`findBacklinks` of `src/store/noteStore.ts`) -/
/-- Case-insensitive match of the literal pattern `pat` against the start
of a character list (ASCII case folding, as performed by the `i` flag on
the metacharacter-escaped wiki-link pattern). -/
def ciPrefixMatch : List Char → List Char → Bool
  | [], _ => true
  | _ :: _, [] => false
  | p :: ps, c :: cs => (p.toLower = c.toLower) && ciPrefixMatch ps cs

/-- First position `>= j` (absolute index `j` names the head of `l`) at
which the literal pattern matches case-insensitively. -/
def ciFindAux (pat : List Char) : List Char → Nat → Option Nat
  | [], j => if ciPrefixMatch pat [] then some j else none
  | l@(_ :: rest), j =>
    if ciPrefixMatch pat l then some j else ciFindAux pat rest (j + 1)

/-- `RegExp.prototype.test` under the `g` flag, for a literal
case-insensitive pattern: search from `lastIndex`; on a hit return `true`
with `lastIndex` moved past the match, on a miss return `false` with
`lastIndex` reset to 0.  The second component is the regular expression's
mutable `lastIndex` after the call. -/
def testG (pat : List Char) (line : String) (lastIdx : Nat) : Bool × Nat :=
  match ciFindAux pat (line.data.drop lastIdx) lastIdx with
  | some j => (true, j + pat.length)
  | none => (false, 0)

/-- The wiki-link pattern `\[\[escapedName\]\]`: since every metacharacter
of `noteName` is escaped by the code, it matches exactly the literal
`[[noteName]]`. -/
def wikiPattern (noteName : String) : List Char :=
  '[' :: '[' :: (noteName.data ++ [']', ']'])

/-- `node.name.replace(/\.md$/, "")`. -/
def stripMdSuffix (s : String) : String :=
  if jsEndsWith ".md" s then String.mk (s.data.take (s.data.length - 3)) else s

/-- A `Backlink` record of `src/store/noteStore.ts`. -/
structure Backlink where
  path : String
  name : String
  context : String
deriving DecidableEq

/-- The per-file line loop of `findBacklinks`: test each line with the
shared stateful pattern, stopping at the first hit.  Returns the matching
line, if any, and the pattern's `lastIndex` after the loop. -/
def blScanLines (pat : List Char) : List String → Nat → Option String × Nat
  | [], li => (none, li)
  | l :: rest, li =>
    match testG pat l li with
    | (true, li') => (some l, li')
    | (false, li') => blScanLines pat rest li'

mutual

/-- The `searchInFiles` walk of `findBacklinks` at one node, threading the
pattern's `lastIndex` and the accumulated backlinks: recurse into
directories that carry children, scan `.md` files (a `none` read, i.e. a
thrown `readTextFile`, is skipped), ignore the rest. -/
def blVisitNode (fs : String → Option String) (pat : List Char) :
    FileNode → Nat × List Backlink → Nat × List Backlink
  | .mk nm p d cs _, st =>
    if d && cs.isSome then blVisitOpt fs pat cs st
    else if jsEndsWith ".md" p then
      match fs p with
      | none => st
      | some content =>
        match blScanLines pat (jsSplitLines content) st.1 with
        | (some line, li') =>
          (li', st.2 ++ [⟨p, stripMdSuffix nm, String.mk ((jsTrimL line.data).take 100)⟩])
        | (none, li') => (li', st.2)
    else st

/-- `searchInFiles` over an optional children field. -/
def blVisitOpt (fs : String → Option String) (pat : List Char) :
    Option (List FileNode) → Nat × List Backlink → Nat × List Backlink
  | none, st => st
  | some l, st => blVisitList fs pat l st

/-- `searchInFiles` over a node list, in order. -/
def blVisitList (fs : String → Option String) (pat : List Char) :
    List FileNode → Nat × List Backlink → Nat × List Backlink
  | [], st => st
  | x :: xs, st => blVisitList fs pat xs (blVisitNode fs pat x st)

end

/-- `findBacklinks` from `src/store/noteStore.ts`: one regular expression
object (hence one shared `lastIndex`, starting at 0) is used for the whole
walk over the current tree. -/
def findBacklinks (fs : String → Option String) (files : List FileNode)
    (noteName : String) : List Backlink :=
  (blVisitList fs (wikiPattern noteName) files (0, [])).2

/-- The two-note tree of the C4 failing input. -/
def c4Tree : List FileNode :=
  [⟨"b.md", "/n/b.md", false, none, none⟩, ⟨"c.md", "/n/c.md", false, none, none⟩]

/-- Both notes consist of the single line `[[a]]`. -/
def c4Fs : String → Option String := fun p =>
  if p = "/n/b.md" then some "[[a]]" else if p = "/n/c.md" then some "[[a]]" else none

/- ## Tag scanner (`scanAllTags` of `src/store/noteStore.ts`) -/
/-- `[a-zA-Z]`. -/
def isAsciiLetter (c : Char) : Bool :=
  ('a' ≤ c && c ≤ 'z') || ('A' ≤ c && c ≤ 'Z')

/-- The tag-body class `[a-zA-Z0-9_-]`. -/
def tagChar (c : Char) : Bool :=
  isAsciiLetter c || ('0' ≤ c && c ≤ '9') || c = '_' || c = '-'

/-- The `exec` loop over `/(?<=\s|^)#([a-zA-Z][a-zA-Z0-9_-]*)/g` as a state
machine: `prevBoundary` tells whether the look-behind holds at the current
position (start of input or previous character whitespace); `cur` is the
reversed group collected so far when inside a match.  Produces the captured
groups in order of the non-overlapping, left-to-right matches. -/
def tagGo (prevBoundary : Bool) (cur : Option (List Char)) : List Char → List String
  | [] =>
    match cur with
    | some acc => [String.mk acc.reverse]
    | none => []
  | c :: rest =>
    match cur with
    | some acc =>
      if tagChar c then tagGo false (some (c :: acc)) rest
      else String.mk acc.reverse :: tagGo (jsWs c) none rest
    | none =>
      if c = '#' && prevBoundary &&
          (match rest with
            | d :: _ => isAsciiLetter d
            | [] => false) then
        tagGo false (some []) rest
      else tagGo (jsWs c) none rest

/-- All tag captures of one note body, in order. -/
def tagsOf (content : String) : List String :=
  tagGo true none content.data

/-- `tagCounts.set(tag, (tagCounts.get(tag) || 0) + 1)` on an
insertion-ordered association list, the model of the JavaScript `Map`. -/
def bumpTag : List (String × Nat) → String → List (String × Nat)
  | [], t => [(t, 1)]
  | (s, n) :: rest, t =>
    if s = t then (s, n + 1) :: rest else (s, n) :: bumpTag rest t

/-- Accumulate the lowercased tags of one note into the count map. -/
def addTags (m : List (String × Nat)) : List String → List (String × Nat)
  | [] => m
  | t :: ts => addTags (bumpTag m (String.mk (t.data.map Char.toLower))) ts

/-- A `TagInfo` record of `src/store/noteStore.ts`. -/
structure TagInfo where
  tag : String
  count : Nat
deriving DecidableEq

mutual

/-- The `scanFiles` walk of `scanAllTags` at one node: recurse into
directories that carry children, scan `.md` files (an unreadable file is
skipped), ignore the rest.  The regular expression's `lastIndex` is 0 after
each exhausted `exec` loop, so no state crosses from one file to the
next. -/
def tagVisitNode (fs : String → Option String) :
    FileNode → List (String × Nat) → List (String × Nat)
  | .mk _ p d cs _, m =>
    if d && cs.isSome then tagVisitOpt fs cs m
    else if jsEndsWith ".md" p then
      match fs p with
      | none => m
      | some content => addTags m (tagsOf content)
    else m

/-- `scanFiles` over an optional children field. -/
def tagVisitOpt (fs : String → Option String) :
    Option (List FileNode) → List (String × Nat) → List (String × Nat)
  | none, m => m
  | some l, m => tagVisitList fs l m

/-- `scanFiles` over a node list, in order. -/
def tagVisitList (fs : String → Option String) :
    List FileNode → List (String × Nat) → List (String × Nat)
  | [], m => m
  | x :: xs, m => tagVisitList fs xs (tagVisitNode fs x m)

end

/-- `scanAllTags` from `src/store/noteStore.ts`: walk the tree accumulating
lowercased tag counts in insertion order, then map the entries to `TagInfo`
and stable-sort by descending count. -/
def scanAllTags (fs : String → Option String) (files : List FileNode) :
    List TagInfo :=
  jsSortBy (fun a b => b.count ≤ a.count)
    ((tagVisitList fs files []).map (fun p => TagInfo.mk p.1 p.2))

mutual

/-- The paths `scanAllTags`' walk reads: the `.md` file nodes of the tree,
in traversal order (directories carrying children are recursed into, not
read). -/
def scanPathsNode : FileNode → List String
  | .mk _ p d cs _ =>
    if d && cs.isSome then scanPathsOpt cs
    else if jsEndsWith ".md" p then [p]
    else []

/-- `scanPathsNode` over an optional children field. -/
def scanPathsOpt : Option (List FileNode) → List String
  | none => []
  | some l => scanPathsList l

/-- `scanPathsNode` over a node list. -/
def scanPathsList : List FileNode → List String
  | [] => []
  | x :: xs => scanPathsNode x ++ scanPathsList xs

end

/-- The one-note tree used to witness C7. -/
def c7Tree : List FileNode := [⟨"a.md", "/n/a.md", false, none, none⟩]

/-- A first scan environment: the tree's note reads `"hello #work"`. -/
def c7Fs1 : String → Option String := fun p =>
  if p = "/n/a.md" then some "hello #work" else none

/-- A second scan environment agreeing with the first on the tree's note
but different elsewhere. -/
def c7Fs2 : String → Option String := fun p =>
  if p = "/n/a.md" then some "hello #work" else some "spooky #other"

/- ## Editor auto-save (`src/components/Editor/MarkdownEditor.tsx`) -/
/-- The editor-session state: the store fields the component reads
(`currentNote`, `content`, `isDirty`, `isSaving`), the component's
`pendingSaveRef` (a `{path, content}` pair), the debounce timer (whether it
is armed, and the `currentNote` captured by the `handleChange` closure that
armed it), and the log of file writes performed, most recent first. -/
structure EditorState where
  currentNote : Option String
  content : String
  isDirty : Bool
  isSaving : Bool
  pending : Option (String × String)
  timerArmed : Bool
  timerNote : Option String
  writes : List (String × String)

/-- `handleChange(value)`: `setContent` (which marks the note dirty exactly
when one is open), record `{path: currentNote, content: value}` in
`pendingSaveRef` when a note is open, and re-arm the debounce timer, whose
callback captures the current `currentNote`. -/
def handleChange (v : String) (s : EditorState) : EditorState :=
  { s with
      content := v
      isDirty := s.currentNote.isSome
      pending :=
        match s.currentNote with
        | some p => some (p, v)
        | none => s.pending
      timerArmed := true
      timerNote := s.currentNote }

/-- Opening note `b` (with stored body `cb`): the cleanup of the
note-switch effect runs first with the values captured at the moment of the
switch — clear any pending timer and, when the captured state was dirty
with a note open, write the captured content to the captured path — then
`loadNote` installs the new note as clean.  `pendingSaveRef` is not
cleared. -/
def openNote (b cb : String) (s : EditorState) : EditorState :=
  { currentNote := some b
    content := cb
    isDirty := false
    isSaving := s.isSaving
    pending := s.pending
    timerArmed := false
    timerNote := none
    writes :=
      if s.isDirty then
        match s.currentNote with
        | some p => (p, s.content) :: s.writes
        | none => s.writes
      else s.writes }

/-- The debounce timer elapsing: the callback writes the pending
`{path, content}` only when the pending path still equals the
`currentNote` captured when the timer was armed; otherwise it does
nothing.  Either way the timer is now spent. -/
def timerFire (s : EditorState) : EditorState :=
  if s.timerArmed then
    match s.pending with
    | some (p, c) =>
      if s.timerNote = some p then
        { s with
            writes := (p, c) :: s.writes
            isDirty := false
            isSaving := false
            timerArmed := false }
      else { s with timerArmed := false }
    | none => { s with timerArmed := false }
  else s

/-- An editor state with note `/n/A.md` open and clean, used to witness
C1. -/
def c1State : EditorState := ⟨some "/n/A.md", "old", false, false, none, false, none, []⟩

/-- An editor state whose armed timer captured no open note while
`pendingSaveRef` still holds a stale pair for `/n/A.md`, used to witness
the discard half of C1. -/
def c1StaleState : EditorState :=
  ⟨none, "w", false, false, some ("/n/A.md", "v"), true, none, []⟩

/- ## Theorems -/

/- ## Claim C2 -/
/-- C2: the claim states that `sanitizeFileName` never returns a string
containing `..`, `/` or `\`.  The code violates this: on the input `"./."`
the `..`-removal pass finds nothing, the separator pass then deletes the
`/`, and the two remaining dots join into `".."` — a path-traversal token
produced by the sanitizer itself, contradicting its documented purpose. -/
theorem C2_sanitizeFileName_emits_dotdot :
    sanitizeFileName "./." = ".." ∧ containsSub ".." (sanitizeFileName "./.") = true := by
  constructor
  · rfl
  · rfl

/- ## Claim C3 -/
/-- C3: for every storage state, whenever the target folder equals the source
path or is a descendant of it (it starts with `sourcePath + "/"`),
`moveItem` returns `none` and performs no storage operation — no existence
check, no rename, no write.  The self-move guard (and the name validation
before it) runs before the first storage access. -/
theorem C3_moveItem_self_or_descendant_no_storage (st : Storage)
    (sourcePath targetFolder : String)
    (h : targetFolder = sourcePath ∨
      jsStartsWith (sourcePath ++ "/") targetFolder = true) :
    moveItem st sourcePath targetFolder = (none, []) := by
  have hg : (decide (targetFolder = sourcePath) ||
      jsStartsWith (sourcePath ++ "/") targetFolder) = true := by
    rcases h with h | h
    · simp [h]
    · simp [h]
  unfold moveItem
  cases hv : isValidName (lastSegment sourcePath) with
  | false => simp [hv]
  | true => simp [hv, hg]

/-- Witness for C3 at a concrete input: moving `/r/a` into its own
subdirectory `/r/a/b` fails with no storage operation. -/
theorem C3_moveItem_self_or_descendant_no_storage_witness :
    ("/r/a/b" = "/r/a" ∨ jsStartsWith ("/r/a" ++ "/") "/r/a/b" = true) ∧
    moveItem mvStorage "/r/a" "/r/a/b" = (none, []) :=
  ⟨Or.inr (by decide),
    C3_moveItem_self_or_descendant_no_storage mvStorage "/r/a" "/r/a/b"
      (Or.inr (by decide))⟩

/- ## Claim C5 -/
/-- C5 counterexample: the claim says the id is the lowercased heading text
with non-word/non-space characters stripped; `-` is such a character, yet
the code's strip `[^\w\s-]` keeps it.  On `"# a-b"` the code produces the
id `"a-b"`, while the claimed description produces `"ab"`. -/
theorem C5_counterexample_hyphen :
    useMarkdownHeadings "# a-b" = [⟨"a-b", "a-b", 1, 1⟩] ∧
    claimedSlugId "a-b" = "ab" ∧ ("a-b" : String) ≠ "ab" := by
  refine ⟨by rfl, by rfl, by decide⟩

/-- C5 (amended): the extractor returns one entry per line matching
`^#{1,6}\s+(.+)$`, in line order with 1-based line numbers; the level is the
number of `#`s and the id is the lowercased trimmed heading text with
characters that are neither word characters, whitespace nor `-` stripped
and each whitespace run replaced by `-`.  Being a Lean function of
`content`, it depends on the content alone. -/
theorem C5_headings_match_spec (content : String) :
    useMarkdownHeadings content = specHeadings content := by
  suffices h : ∀ (ls : List String) (i : Nat),
      headingsGo ls i = (ls.enumFrom i).filterMap (fun p => specHeadingOfLine p.1 p.2) by
    simpa [useMarkdownHeadings, specHeadings, List.enum] using h (jsSplitLines content) 0
  intro ls
  induction ls with
  | nil => intro i; rfl
  | cons l rest ih =>
    intro i
    cases h : lineHeading l with
    | some q => simp [headingsGo, h, List.enumFrom, specHeadingOfLine, ih]
    | none => simp [headingsGo, h, List.enumFrom, specHeadingOfLine, ih]

theorem mem_insertBy (le : α → α → Bool) (x : α) (l : List α) :
    ∀ y, y ∈ insertBy le x l ↔ y = x ∨ y ∈ l := by
  induction l with
  | nil => simp [insertBy]
  | cons z zs ih =>
    intro y
    by_cases h : le x z = true
    · simp [insertBy, h]
    · simp only [insertBy, if_neg h, List.mem_cons, ih]
      tauto

theorem mem_jsSortBy (le : α → α → Bool) (l : List α) :
    ∀ y, y ∈ jsSortBy le l ↔ y ∈ l := by
  induction l with
  | nil => simp [jsSortBy]
  | cons x xs ih =>
    intro y
    simp [jsSortBy, mem_insertBy, ih]

theorem pairwise_insertBy (le : α → α → Bool)
    (htot : ∀ a b, le a b = true ∨ le b a = true)
    (htrans : ∀ a b c, le a b = true → le b c = true → le a c = true)
    (x : α) (l : List α) (h : l.Pairwise (fun a b => le a b = true)) :
    (insertBy le x l).Pairwise (fun a b => le a b = true) := by
  induction l with
  | nil => simp [insertBy]
  | cons y ys ih =>
    rw [List.pairwise_cons] at h
    by_cases hxy : le x y = true
    · have hx : ∀ z ∈ ys, le x z = true := fun z hz => htrans x y z hxy (h.1 z hz)
      simp only [insertBy, if_pos hxy, List.pairwise_cons]
      refine ⟨?_, ?_, h.2⟩
      · intro z hz
        rcases List.mem_cons.mp hz with hz | hz
        · exact hz ▸ hxy
        · exact hx z hz
      · exact h.1
    · have hyx : le y x = true := by
        rcases htot x y with ht | ht
        · exact absurd ht hxy
        · exact ht
      simp only [insertBy, if_neg hxy, List.pairwise_cons]
      refine ⟨?_, ih h.2⟩
      intro z hz
      rcases (mem_insertBy le x ys z).mp hz with hz | hz
      · exact hz ▸ hyx
      · exact h.1 z hz

theorem pairwise_jsSortBy (le : α → α → Bool)
    (htot : ∀ a b, le a b = true ∨ le b a = true)
    (htrans : ∀ a b c, le a b = true → le b c = true → le a c = true)
    (l : List α) :
    (jsSortBy le l).Pairwise (fun a b => le a b = true) := by
  induction l with
  | nil => simp [jsSortBy]
  | cons x xs ih => exact pairwise_insertBy le htot htrans x _ ih

theorem lexLeCh_total : ∀ x y, lexLeCh x y = true ∨ lexLeCh y x = true := by
  intro x
  induction x with
  | nil => intro y; left; rfl
  | cons a as ih =>
    intro y
    cases y with
    | nil => right; rfl
    | cons b bs =>
      by_cases hab : a = b
      · subst hab
        simp only [lexLeCh, if_pos rfl]
        exact ih bs
      · rcases lt_or_gt_of_ne hab with h | h
        · left
          simp [lexLeCh, hab, h]
        · right
          simp [lexLeCh, Ne.symm hab, h]

theorem lexLeCh_trans :
    ∀ x y z, lexLeCh x y = true → lexLeCh y z = true → lexLeCh x z = true := by
  intro x
  induction x with
  | nil => intro y z _ _; rfl
  | cons a as ih =>
    intro y z h1 h2
    cases y with
    | nil => simp [lexLeCh] at h1
    | cons b bs =>
      cases z with
      | nil => simp [lexLeCh] at h2
      | cons c cs =>
        by_cases hab : a = b <;> by_cases hbc : b = c
        · subst hab; subst hbc
          simp only [lexLeCh, if_pos rfl] at h1 h2 ⊢
          exact ih bs cs h1 h2
        · subst hab
          simp only [lexLeCh, if_neg hbc] at h2
          simp only [lexLeCh, if_neg hbc]
          exact h2
        · subst hbc
          simp only [lexLeCh, if_neg hab] at h1
          simp only [lexLeCh, if_neg hab]
          exact h1
        · simp only [lexLeCh, if_neg hab] at h1
          simp only [lexLeCh, if_neg hbc] at h2
          have hac : a < c := lt_trans (of_decide_eq_true h1) (of_decide_eq_true h2)
          simp [lexLeCh, ne_of_lt hac, hac]

theorem nodeLe_total (lc : String → String → Int)
    (htot : ∀ a b, lc a b ≤ 0 ∨ lc b a ≤ 0) :
    ∀ a b, nodeLe lc a b = true ∨ nodeLe lc b a = true := by
  intro a b
  cases ha : a.isDirectory <;> cases hb : b.isDirectory <;>
    simp [nodeLe, ha, hb]
  · exact htot a.name b.name
  · exact htot a.name b.name

theorem nodeLe_trans (lc : String → String → Int)
    (htrans : ∀ a b c, lc a b ≤ 0 → lc b c ≤ 0 → lc a c ≤ 0) :
    ∀ a b c, nodeLe lc a b = true → nodeLe lc b c = true → nodeLe lc a c = true := by
  intro a b c h1 h2
  cases ha : a.isDirectory <;> cases hb : b.isDirectory <;> cases hc : c.isDirectory <;>
    simp [nodeLe, ha, hb, hc] at h1 h2 ⊢
  · exact htrans _ _ _ h1 h2
  · exact htrans _ _ _ h1 h2

theorem nodeLe_imp (lc : String → String → Int)
    (hci : ∀ a b, lc a b ≤ 0 → ciLe a b = true) :
    ∀ a b, nodeLe lc a b = true → nodeOrdered a b := by
  intro a b h
  cases ha : a.isDirectory <;> cases hb : b.isDirectory <;>
    simp [nodeLe, ha, hb] at h <;>
    simp [nodeOrdered, ha, hb]
  · exact hci _ _ h
  · exact hci _ _ h

theorem collectNodes_children (lc : String → String → Int) (path : String)
    (l : List RawEntry) :
    ∀ n ∈ collectNodes lc path l, ∀ cl, n.children = some cl →
      ∃ p' sub, sizeOf sub < sizeOf l ∧ cl = readNotesDirectory lc p' sub := by
  induction l with
  | nil => simp [collectNodes]
  | cons e rest ih =>
    have hrest : sizeOf rest < sizeOf (e :: rest) := by
      simp only [List.cons.sizeOf_spec]
      omega
    intro n hn cl hcl
    cases e with
    | fileE nm =>
      by_cases h1 : jsStartsWith "." nm = true
      · rw [show collectNodes lc path (.fileE nm :: rest) = collectNodes lc path rest by
          simp [collectNodes, h1]] at hn
        obtain ⟨p', sub, hsz, he⟩ := ih n hn cl hcl
        exact ⟨p', sub, lt_trans hsz hrest, he⟩
      · by_cases h2 : jsEndsWith ".md" nm = true
        · rw [show collectNodes lc path (.fileE nm :: rest) =
              FileNode.mk nm (path ++ "/" ++ nm) false none none :: collectNodes lc path rest by
            simp [collectNodes, h1, h2]] at hn
          rcases List.mem_cons.mp hn with hn | hn
          · subst hn
            simp [FileNode.children] at hcl
          · obtain ⟨p', sub, hsz, he⟩ := ih n hn cl hcl
            exact ⟨p', sub, lt_trans hsz hrest, he⟩
        · rw [show collectNodes lc path (.fileE nm :: rest) = collectNodes lc path rest by
            simp [collectNodes, h1, h2]] at hn
          obtain ⟨p', sub, hsz, he⟩ := ih n hn cl hcl
          exact ⟨p', sub, lt_trans hsz hrest, he⟩
    | dirE nm sub =>
      have hsub : sizeOf sub < sizeOf (RawEntry.dirE nm sub :: rest) := by
        simp only [List.cons.sizeOf_spec, RawEntry.dirE.sizeOf_spec]
        omega
      by_cases h1 : jsStartsWith "." nm = true
      · rw [show collectNodes lc path (.dirE nm sub :: rest) = collectNodes lc path rest by
          simp [collectNodes, h1]] at hn
        obtain ⟨p', sub', hsz, he⟩ := ih n hn cl hcl
        exact ⟨p', sub', lt_trans hsz hrest, he⟩
      · rw [show collectNodes lc path (.dirE nm sub :: rest) =
            FileNode.mk nm (path ++ "/" ++ nm) true
              (some (readNotesDirectory lc (path ++ "/" ++ nm) sub)) none
              :: collectNodes lc path rest by
          simp [collectNodes, h1]] at hn
        rcases List.mem_cons.mp hn with hn | hn
        · subst hn
          simp only [FileNode.children, Option.some.injEq] at hcl
          exact ⟨path ++ "/" ++ nm, sub, hsub, hcl.symm⟩
        · obtain ⟨p', sub', hsz, he⟩ := ih n hn cl hcl
          exact ⟨p', sub', lt_trans hsz hrest, he⟩

/- ## Claim C6 -/
/-- C6: for every directory listing, assuming only that the external
`localeCompare` behaves as a consistent comparator compatible with
case-insensitive lexical order (total, transitive, and
`localeCompare(a, b) <= 0` implying case-insensitive `a <= b`), the tree
built by `readNotesDirectory` is sorted at every level: directories precede
files and, inside each of the two groups, sibling names are in
case-insensitive lexical order. -/
theorem C6_readNotesDirectory_sorted (lc : String → String → Int)
    (htot : ∀ a b, lc a b ≤ 0 ∨ lc b a ≤ 0)
    (htrans : ∀ a b c, lc a b ≤ 0 → lc b c ≤ 0 → lc a c ≤ 0)
    (hci : ∀ a b, lc a b ≤ 0 → ciLe a b = true)
    (path : String) (entries : List RawEntry) :
    LevelsSorted (readNotesDirectory lc path entries) := by
  suffices h : ∀ (k : Nat) (path : String) (entries : List RawEntry),
      sizeOf entries < k → LevelsSorted (readNotesDirectory lc path entries) from
    h (sizeOf entries + 1) path entries (Nat.lt_succ_self _)
  intro k
  induction k with
  | zero => exact fun path entries h0 => absurd h0 (Nat.not_lt_zero _)
  | succ k ihk =>
    intro path entries hsz
    rw [readNotesDirectory]
    refine LevelsSorted.intro _ ?_ ?_
    · exact (pairwise_jsSortBy (nodeLe lc) (nodeLe_total lc htot) (nodeLe_trans lc htrans)
        (collectNodes lc path entries)).imp (fun hab => nodeLe_imp lc hci _ _ hab)
    · intro n hn cl hcl
      have hn' : n ∈ collectNodes lc path entries := (mem_jsSortBy _ _ n).mp hn
      obtain ⟨p', sub, hlt, he⟩ := collectNodes_children lc path entries n hn' cl hcl
      rw [he]
      exact ihk p' sub (lt_of_lt_of_le hlt (Nat.lt_succ_iff.mp hsz))

theorem ciCompare_le_iff (a b : String) : ciCompare a b ≤ 0 ↔ ciLe a b = true := by
  unfold ciCompare
  cases h1 : ciLe a b
  · simp
  · cases h2 : ciLe b a <;> simp

theorem ciCompare_total : ∀ a b, ciCompare a b ≤ 0 ∨ ciCompare b a ≤ 0 := by
  intro a b
  rcases lexLeCh_total (a.data.map Char.toLower) (b.data.map Char.toLower) with h | h
  · exact Or.inl ((ciCompare_le_iff a b).mpr h)
  · exact Or.inr ((ciCompare_le_iff b a).mpr h)

theorem ciCompare_trans :
    ∀ a b c, ciCompare a b ≤ 0 → ciCompare b c ≤ 0 → ciCompare a c ≤ 0 := by
  intro a b c h1 h2
  exact (ciCompare_le_iff a c).mpr
    (lexLeCh_trans _ _ _ ((ciCompare_le_iff a b).mp h1) ((ciCompare_le_iff b c).mp h2))

theorem ciCompare_ci : ∀ a b, ciCompare a b ≤ 0 → ciLe a b = true := by
  intro a b h
  exact (ciCompare_le_iff a b).mp h

/-- Witness for C6: the tree built from the concrete listing under the
case-insensitive comparator is sorted at every level. -/
theorem C6_readNotesDirectory_sorted_witness :
    LevelsSorted (readNotesDirectory ciCompare "/root" c6Entries) :=
  C6_readNotesDirectory_sorted ciCompare ciCompare_total ciCompare_trans ciCompare_ci
    "/root" c6Entries

/- ## Claims C8 and C10 (`loadNote`) -/

/-- C8 counterexample: the claim quantifies over every prior recents list,
but a prior list that already contains a duplicate (possible, since the
list is read back from the external meta store) keeps it: loading `"a"`
over prior recents `["b", "b"]` yields `["a", "b", "b"]`, which has `"a"`
first and length at most 10 but is not duplicate-free. -/
theorem C8_counterexample_duplicate_recents :
    (loadNote c8Fs "a" c8State).1.recentNotes = ["a", "b", "b"] ∧
    ¬ (loadNote c8Fs "a" c8State).1.recentNotes.Nodup := by
  constructor
  · rfl
  · decide

/-- C8 (amended): after a successful `loadNote(path)` the recents list has
`path` as its first element and length at most 10; and provided the prior
recents list had no duplicates, the updated one has none either. -/
theorem C8_loadNote_recents_front_capped (fs : String → Option String)
    (path : String) (s : NoteState) (c : String) (h : fs path = some c) :
    (loadNote fs path s).1.recentNotes.head? = some path ∧
    (loadNote fs path s).1.recentNotes.length ≤ 10 ∧
    (s.recentNotes.Nodup → (loadNote fs path s).1.recentNotes.Nodup) := by
  have hl : (loadNote fs path s).1.recentNotes
      = (path :: s.recentNotes.filter (fun p => p ≠ path)).take 10 := by
    simp [loadNote, h]
  rw [hl]
  refine ⟨rfl, ?_, ?_⟩
  · simp [List.length_take]
  · intro hnd
    have hcons : (path :: s.recentNotes.filter (fun p => p ≠ path)).Nodup := by
      refine List.nodup_cons.mpr ⟨?_, hnd.filter _⟩
      intro hmem
      have h2 := (List.mem_filter.mp hmem).2
      simp at h2
    exact hcons.sublist (List.take_sublist _ _)

/-- Witness for the amended C8 at a concrete input: loading `"a"` over the
duplicate-free prior recents `["b", "a"]` puts `"a"` first, stays within
the cap, and stays duplicate-free. -/
theorem C8_loadNote_recents_front_capped_witness :
    c8Fs "a" = some "x" ∧
    (loadNote c8Fs "a" c8GoodState).1.recentNotes.head? = some "a" ∧
    (loadNote c8Fs "a" c8GoodState).1.recentNotes.length ≤ 10 ∧
    (loadNote c8Fs "a" c8GoodState).1.recentNotes.Nodup := by
  have h := C8_loadNote_recents_front_capped c8Fs "a" c8GoodState "x" rfl
  exact ⟨rfl, h.1, h.2.1, h.2.2 (by decide)⟩

/-- C10: when the read fails, `loadNote` leaves `currentNote`, `content`,
`isDirty` and the recents list (indeed every field) as they were, persists
nothing, and only resets `isLoading` to `false`. -/
theorem C10_loadNote_read_failure (fs : String → Option String) (path : String)
    (s : NoteState) (h : fs path = none) :
    loadNote fs path s = ({ s with isLoading := false }, []) := by
  simp [loadNote, h]

/-- Witness for C10 at a concrete input: a failing read over a dirty
mid-session state changes nothing but `isLoading` and persists nothing. -/
theorem C10_loadNote_read_failure_witness :
    c10Fs "/n/a.md" = none ∧
    loadNote c10Fs "/n/a.md" c10State = ({ c10State with isLoading := false }, []) :=
  ⟨rfl, C10_loadNote_read_failure c10Fs "/n/a.md" c10State rfl⟩

/- ## Claim C9 (`toggleFavorite`) -/

mutual

theorem stripFav_updFavNode (fav : List String) (t : FileNode) :
    stripFavNode (updateFavoritesNode fav t) = stripFavNode t := by
  cases t with
  | mk n p d cs f =>
    rw [updateFavoritesNode, stripFavNode, stripFavNode, stripFav_updFavOpt fav cs]

theorem stripFav_updFavOpt (fav : List String) (cs : Option (List FileNode)) :
    stripFavOpt (updateFavoritesOpt fav cs) = stripFavOpt cs := by
  cases cs with
  | none => rfl
  | some l =>
    rw [updateFavoritesOpt, stripFavOpt, stripFavOpt, stripFav_updFavList fav l]

theorem stripFav_updFavList (fav : List String) (l : List FileNode) :
    stripFavList (updateFavoritesList fav l) = stripFavList l := by
  cases l with
  | nil => rfl
  | cons x xs =>
    rw [updateFavoritesList, stripFavList, stripFavList, stripFav_updFavNode fav x,
      stripFav_updFavList fav xs]

end

mutual

theorem mark_updFavNode (fav : List String) (t : FileNode) :
    ∀ n ∈ nodesOfNode (updateFavoritesNode fav t),
      n.isFavorite = some (fav.contains n.path) := by
  cases t with
  | mk nm p d cs f =>
    intro n hn
    rw [updateFavoritesNode, nodesOfNode] at hn
    rcases List.mem_cons.mp hn with hn | hn
    · subst hn
      rfl
    · exact mark_updFavOpt fav cs n hn

theorem mark_updFavOpt (fav : List String) (cs : Option (List FileNode)) :
    ∀ n ∈ nodesOfOpt (updateFavoritesOpt fav cs),
      n.isFavorite = some (fav.contains n.path) := by
  cases cs with
  | none =>
    intro n hn
    simp [updateFavoritesOpt, nodesOfOpt] at hn
  | some l =>
    intro n hn
    rw [updateFavoritesOpt, nodesOfOpt] at hn
    exact mark_updFavList fav l n hn

theorem mark_updFavList (fav : List String) (l : List FileNode) :
    ∀ n ∈ nodesOfList (updateFavoritesList fav l),
      n.isFavorite = some (fav.contains n.path) := by
  cases l with
  | nil =>
    intro n hn
    simp [updateFavoritesList, nodesOfList] at hn
  | cons x xs =>
    intro n hn
    rw [updateFavoritesList, nodesOfList] at hn
    rcases List.mem_append.mp hn with hn | hn
    · exact mark_updFavNode fav x n hn
    · exact mark_updFavList fav xs n hn

end

/-- C9: `toggleFavorite(path)` flips membership of `path` in the favorites
set; the tree keeps its shape — stripping the `isFavorite` field yields the
tree unchanged (same names, paths, kinds, children structure and order, no
rebuild) — and afterwards every node at any depth carries
`isFavorite = some b` with `b` true exactly when its path belongs to the
updated favorites. -/
theorem C9_toggleFavorite_flip_and_frame (path : String) (s : NoteState) :
    (path ∈ (toggleFavorite path s).1.favorites ↔ path ∉ s.favorites) ∧
    stripFavList (toggleFavorite path s).1.files = stripFavList s.files ∧
    ∀ n ∈ nodesOfList (toggleFavorite path s).1.files,
      n.isFavorite = some ((toggleFavorite path s).1.favorites.contains n.path) := by
  refine ⟨?_, ?_, ?_⟩
  · by_cases hm : path ∈ s.favorites
    · simp [toggleFavorite, hm, List.mem_filter]
    · simp [toggleFavorite, hm]
  · simp only [toggleFavorite]
    exact stripFav_updFavList _ s.files
  · simp only [toggleFavorite]
    intro n hn
    exact mark_updFavList _ s.files n hn

/- ## Claim C4 (`findBacklinks`) -/

/-- C4: the claim says every note containing a matching line gets exactly
one backlink entry.  The code violates it: the wiki-link pattern is built
with the `g` flag and reused with `test` across files, so the `lastIndex`
left by a hit in one file makes the first test in the next file start past
the beginning of its line.  With two notes both consisting of the single
line `[[a]]`, only the first receives an entry, although the second note's
line matches the pattern from a fresh state (second conjunct). -/
theorem C4_findBacklinks_lastIndex_leak :
    findBacklinks c4Fs c4Tree "a" = [⟨"/n/b.md", "b", "[[a]]"⟩] ∧
    testG (wikiPattern "a") "[[a]]" 0 = (true, 5) := by
  constructor
  · rfl
  · rfl

/- ## Claim C7 (`scanAllTags`) -/

mutual

theorem tagCongrNode (fs1 fs2 : String → Option String) (t : FileNode)
    (h : ∀ p ∈ scanPathsNode t, fs1 p = fs2 p) :
    ∀ m, tagVisitNode fs1 t m = tagVisitNode fs2 t m := by
  cases t with
  | mk nm p d cs f =>
    intro m
    by_cases hd : (d && cs.isSome) = true
    · have hs : scanPathsNode (.mk nm p d cs f) = scanPathsOpt cs := by
        simp [scanPathsNode, hd]
      rw [hs] at h
      rw [show tagVisitNode fs1 (.mk nm p d cs f) m = tagVisitOpt fs1 cs m by
          simp [tagVisitNode, hd],
        show tagVisitNode fs2 (.mk nm p d cs f) m = tagVisitOpt fs2 cs m by
          simp [tagVisitNode, hd]]
      exact tagCongrOpt fs1 fs2 cs h m
    · by_cases hmd : jsEndsWith ".md" p = true
      · have hs : scanPathsNode (.mk nm p d cs f) = [p] := by
          simp [scanPathsNode, hd, hmd]
        rw [hs] at h
        have hp : fs1 p = fs2 p := h p (List.mem_singleton.mpr rfl)
        simp [tagVisitNode, hd, hmd, hp]
      · simp [tagVisitNode, hd, hmd]

theorem tagCongrOpt (fs1 fs2 : String → Option String) (cs : Option (List FileNode))
    (h : ∀ p ∈ scanPathsOpt cs, fs1 p = fs2 p) :
    ∀ m, tagVisitOpt fs1 cs m = tagVisitOpt fs2 cs m := by
  cases cs with
  | none => intro m; rfl
  | some l =>
    have hs : scanPathsOpt (some l) = scanPathsList l := by
      simp [scanPathsOpt]
    rw [hs] at h
    intro m
    rw [show tagVisitOpt fs1 (some l) m = tagVisitList fs1 l m by simp [tagVisitOpt],
      show tagVisitOpt fs2 (some l) m = tagVisitList fs2 l m by simp [tagVisitOpt]]
    exact tagCongrList fs1 fs2 l h m

theorem tagCongrList (fs1 fs2 : String → Option String) (l : List FileNode)
    (h : ∀ p ∈ scanPathsList l, fs1 p = fs2 p) :
    ∀ m, tagVisitList fs1 l m = tagVisitList fs2 l m := by
  cases l with
  | nil => intro m; rfl
  | cons x xs =>
    have hx : ∀ p ∈ scanPathsNode x, fs1 p = fs2 p := by
      intro p hp
      refine h p ?_
      rw [show scanPathsList (x :: xs) = scanPathsNode x ++ scanPathsList xs by
        simp [scanPathsList]]
      exact List.mem_append.mpr (Or.inl hp)
    have hxs : ∀ p ∈ scanPathsList xs, fs1 p = fs2 p := by
      intro p hp
      refine h p ?_
      rw [show scanPathsList (x :: xs) = scanPathsNode x ++ scanPathsList xs by
        simp [scanPathsList]]
      exact List.mem_append.mpr (Or.inr hp)
    intro m
    rw [show tagVisitList fs1 (x :: xs) m = tagVisitList fs1 xs (tagVisitNode fs1 x m) by
        simp [tagVisitList],
      show tagVisitList fs2 (x :: xs) m = tagVisitList fs2 xs (tagVisitNode fs2 x m) by
        simp [tagVisitList],
      tagCongrNode fs1 fs2 x hx m]
    exact tagCongrList fs1 fs2 xs hxs _

end

/-- C7: the tag scan reads exactly the tree's `.md` file nodes, so any two
runs whose reads agree on those paths — in particular two consecutive runs
over an unchanged tree — produce identical `TagInfo` lists: the same
lowercased tags, the same counts, and the same order (stable-sorted by
descending count over the deterministic insertion order). -/
theorem C7_scanAllTags_deterministic (fs1 fs2 : String → Option String)
    (files : List FileNode)
    (h : ∀ p ∈ scanPathsList files, fs1 p = fs2 p) :
    scanAllTags fs1 files = scanAllTags fs2 files := by
  unfold scanAllTags
  rw [tagCongrList fs1 fs2 files h []]

/-- Witness for C7 at a concrete input: two environments agreeing on the
tree's single note (but not elsewhere) give the same scan, with the
expected content. -/
theorem C7_scanAllTags_deterministic_witness :
    (∀ p ∈ scanPathsList c7Tree, c7Fs1 p = c7Fs2 p) ∧
    scanAllTags c7Fs1 c7Tree = scanAllTags c7Fs2 c7Tree ∧
    scanAllTags c7Fs1 c7Tree = [⟨"work", 1⟩] := by
  have hh : ∀ p ∈ scanPathsList c7Tree, c7Fs1 p = c7Fs2 p := by decide
  exact ⟨hh, C7_scanAllTags_deterministic c7Fs1 c7Fs2 c7Tree hh, by rfl⟩

/- ## Claim C1 (editor auto-save race) -/

/-- C1: (i) if note `a` is open and edited to `v`, and a different note `b`
is opened before the auto-save delay elapses, the switch flushes exactly
one write — `v` to `a`'s path, the values captured at the moment of the
switch — and no new write ever targets `b`'s path; (ii) a deferred
auto-save whose pending path no longer equals the captured currently-open
note performs no write at all when the timer elapses. -/
theorem C1_autosave_race :
    (∀ (s : EditorState) (a v b cb : String), s.currentNote = some a → b ≠ a →
      (openNote b cb (handleChange v s)).writes = (a, v) :: s.writes ∧
      ∀ w ∈ (openNote b cb (handleChange v s)).writes, w.1 = b → w ∈ s.writes) ∧
    (∀ (s : EditorState) (p c : String), s.timerArmed = true →
      s.pending = some (p, c) → s.timerNote ≠ some p →
      (timerFire s).writes = s.writes) := by
  constructor
  · intro s a v b cb ha hab
    have hw : (openNote b cb (handleChange v s)).writes = (a, v) :: s.writes := by
      simp [handleChange, openNote, ha]
    refine ⟨hw, ?_⟩
    intro w hw' hb
    rw [hw] at hw'
    rcases List.mem_cons.mp hw' with hw' | hw'
    · exact absurd (hb ▸ congrArg Prod.fst hw') (by simpa using hab)
    · exact hw'
  · intro s p c h1 h2 h3
    simp [timerFire, h1, h2, h3]

/-- Witness for C1 at concrete inputs: editing `/n/A.md` to `"v1"` and
immediately opening `/n/B.md` writes exactly `("/n/A.md", "v1")`; and a
timer whose captured note differs from the pending path writes nothing. -/
theorem C1_autosave_race_witness :
    c1State.currentNote = some "/n/A.md" ∧ ("/n/B.md" : String) ≠ "/n/A.md" ∧
    (openNote "/n/B.md" "bc" (handleChange "v1" c1State)).writes = [("/n/A.md", "v1")] ∧
    c1StaleState.timerArmed = true ∧ c1StaleState.pending = some ("/n/A.md", "v") ∧
    c1StaleState.timerNote ≠ some "/n/A.md" ∧
    (timerFire c1StaleState).writes = [] := by
  have h := C1_autosave_race
  refine ⟨rfl, by decide, ?_, rfl, rfl, by decide, ?_⟩
  · exact (h.1 c1State "/n/A.md" "v1" "/n/B.md" "bc" rfl (by decide)).1
  · exact h.2 c1StaleState "/n/A.md" "v" rfl rfl (by decide)
